import Mathlib

/-!
Shallow embedding of `src/index.js` of the openledger-bot repository.

The source file contains two variants of the program: a WebSocket-based
variant (the first half of the file) and a "v2" REST-only variant (the
second half).  Where the two variants differ, definitions carry a `V1` /
`V2` suffix.  JavaScript numbers produced by `Math.random()` are modelled
as rationals `r` with `0 ≤ r < 1`; `Number.prototype.toFixed(2)` on a
nonnegative number is modelled as rounding to the nearest multiple of
1/100 (ties away from zero, per ECMA-262).
-/

/-- Model of `randomDelay(minMs, maxMs)` from the source:
`Math.floor(Math.random() * (maxMs - minMs + 1)) + minMs`, with the
`Math.random()` draw `r` made explicit. -/
def randomDelay (r : ℚ) (minMs maxMs : ℕ) : ℤ :=
  ⌊r * ((maxMs : ℚ) - (minMs : ℚ) + 1)⌋ + (minMs : ℤ)

/-- Wait drawn on a 429 in the first (WebSocket) variant's `handleAxios429`:
`randomDelay(30000, 50000)`. -/
def wait429V1 (r : ℚ) : ℤ := randomDelay r 30000 50000

/-- Wait drawn on a 429 in the second (v2) variant's `handleAxios429`:
`randomDelay(30000, 100000)`. -/
def wait429V2 (r : ℚ) : ℤ := randomDelay r 30000 100000

/-- Model of `x.toFixed(2)` for nonnegative `x`: the decimal rendering with
exactly two fractional digits, i.e. the nearest multiple of 1/100
(ties rounded up, per ECMA-262 `Number.prototype.toFixed`). -/
def toFixed2 (q : ℚ) : ℚ := ((⌊q * 100 + 1/2⌋ : ℤ) : ℚ) / 100

/-- Whitespace characters recognised by JavaScript's `trim` and by the
`\s` regex class (the ASCII ones; the source files contain only ASCII). -/
def isJsWhitespace (c : Char) : Bool :=
  c = ' ' || c = '\t' || c = '\n' || c = '\r' || c = '\x0b' || c = '\x0c'

/-- Model of `String.prototype.trim` on the character list. -/
def jsTrimList (l : List Char) : List Char :=
  ((l.dropWhile isJsWhitespace).reverse.dropWhile isJsWhitespace).reverse

/-- Model of `raw.trim()`. -/
def jsTrim (s : String) : String := ⟨jsTrimList s.toList⟩

/-- ASCII lower-casing of one character, as used to model the
case-insensitive regex flag `i`. -/
def lowerAscii (c : Char) : Char :=
  if 'A' ≤ c ∧ c ≤ 'Z' then Char.ofNat (c.toNat + 32) else c

/-- Model of the test `/^https?:\/\//i.test(s)`: the string starts with
`http://` or `https://`, ASCII-case-insensitively. -/
def hasHttpScheme (s : String) : Bool :=
  ((s.toList.take 7).map lowerAscii == "http://".toList) ||
  ((s.toList.take 8).map lowerAscii == "https://".toList)

/-- Model of `sanitizeProxyUrl(raw)` (identical in both variants):
falsy (empty) input or whitespace-only input yields `null`; otherwise the
trimmed string, with `http://` prepended when no scheme is present. -/
def sanitizeProxyUrl (raw : String) : Option String :=
  if raw = "" then none
  else
    let trimmed := jsTrim raw
    if trimmed = "" then none
    else if hasHttpScheme trimmed then some trimmed
    else some ("http://" ++ trimmed)

/-- UTF-8 encoding of one character, byte values as naturals
(model of the `utf-8` step of `Buffer.from(str, 'utf-8')`). -/
def charUtf8 (c : Char) : List ℕ :=
  let n := c.toNat
  if n < 128 then [n]
  else if n < 2048 then [192 + n / 64, 128 + n % 64]
  else if n < 65536 then [224 + n / 4096, 128 + (n / 64) % 64, 128 + n % 64]
  else [240 + n / 262144, 128 + (n / 4096) % 64, 128 + (n / 64) % 64, 128 + n % 64]

/-- UTF-8 byte sequence of a string. -/
def utf8Bytes (s : String) : List ℕ := s.toList.flatMap charUtf8

/-- The standard base64 alphabet. -/
def base64Alphabet : List Char :=
  "ABCDEFGHIJKLMNOPQRSTUVWXYZabcdefghijklmnopqrstuvwxyz0123456789+/".toList

/-- One base64 digit. -/
def b64Digit (i : ℕ) : Char := base64Alphabet.getD i '?'

/-- Base64 encoding of a byte list, with `=` padding. -/
def base64EncodeBytes : List ℕ → List Char
  | [] => []
  | [b0] => [b64Digit (b0 / 4), b64Digit (b0 % 4 * 16), '=', '=']
  | [b0, b1] =>
      [b64Digit (b0 / 4), b64Digit (b0 % 4 * 16 + b1 / 16), b64Digit (b1 % 16 * 4), '=']
  | b0 :: b1 :: b2 :: rest =>
      b64Digit (b0 / 4) :: b64Digit (b0 % 4 * 16 + b1 / 16) ::
      b64Digit (b1 % 16 * 4 + b2 / 64) :: b64Digit (b2 % 64) ::
      base64EncodeBytes rest

/-- Model of `base64Encode(str)`:
`Buffer.from(str, 'utf-8').toString('base64')`. -/
def base64Encode (s : String) : String := ⟨base64EncodeBytes (utf8Bytes s)⟩

/-- An account record as built from one valid `account.txt` line
(the per-run random `sessionID` is kept outside the record and passed
separately where the source uses it). -/
structure Account where
  ownerAddress : String
  token : String
  workerID : String
deriving DecidableEq

/-- Model of `line.split(':')`: split the character list at every colon
(JavaScript split with a single-character separator, empty fields
kept). -/
def splitColon (line : String) : List String :=
  (line.toList.splitOnP fun c => c == ':').map fun w => (⟨w⟩ : String)

/-- Model of parsing one `account.txt` line: `line.split(':')` must give
exactly two fields, which are trimmed; the `workerID` is the base64
encoding of the owner address.  `none` models the
"Skipping malformed line" warning path. -/
def parseAccountLine (line : String) : Option Account :=
  match splitColon line with
  | [a, t] =>
      some { ownerAddress := jsTrim a, token := jsTrim t
             workerID := base64Encode (jsTrim a) }
  | _ => none

/-- Model of `fileContent.trim().split(/\s+/)`: JavaScript's split on a
whitespace-run regex after trimming; on a whitespace-only file the JS
expression yields `[""]`. -/
def splitWsRuns (content : String) : List String :=
  let words := ((jsTrimList content.toList).splitOnP isJsWhitespace).map
    fun w => (⟨w⟩ : String)
  let parts := words.filter fun p => p ≠ ""
  if parts = [] then [""] else parts

/-- Outcome of the startup (file-loading) phase: either `process.exit(1)`
with its code, or the loaded accounts and sanitized proxies. -/
inductive StartupResult where
  | exitCode (c : ℕ)
  | ok (tokens : List Account) (proxies : List String)
deriving DecidableEq

/-- Model of the startup sequence of the source (sections 7 and 8 of the
WebSocket variant, identically sections 3 and 4 of the v2 variant):
parse `account.txt` lines keeping only well-formed ones, exit 1 if none
remain; then read `proxy.txt` (`none` models an unreadable file, which
exits 1), sanitize its entries, and exit 1 when fewer proxies than
accounts remain. -/
def startup (accountContent : String) (proxyContent : Option String) : StartupResult :=
  let tokens := (splitWsRuns accountContent).filterMap parseAccountLine
  if tokens = [] then .exitCode 1
  else
    match proxyContent with
    | none => .exitCode 1
    | some pc =>
        let proxies := (splitWsRuns pc).filterMap sanitizeProxyUrl
        if proxies.length < tokens.length then .exitCode 1
        else .ok tokens proxies

/-- Whether the program proceeds past startup to its network phase
(`schedulePeriodicClaims` / `runPipeline`); `process.exit(1)` prevents
every network call. -/
def startsNetworkPhase (accountContent : String) (proxyContent : Option String) : Bool :=
  match startup accountContent proxyContent with
  | .exitCode _ => false
  | .ok _ _ => true

/-- Outcome of one attempt of a remote call as seen by `handleAxios429`:
a successful response, an error with HTTP status 429, or any other
error (carrying an opaque error value). -/
inductive CallResult (α : Type) where
  | success : α → CallResult α
  | err429 : CallResult α
  | errOther : ℕ → CallResult α
deriving DecidableEq

/-- Model of `handleAxios429(fn)` (identical control flow in both
variants), run against a trace of outcomes of the successive invocations
of `fn`: a 429 sleeps and retries the same call, a success is returned,
any other error is rethrown.  `none` means the trace ended while the
loop was still retrying (it never terminates on its own). -/
def handleAxios429 {α : Type} : List (CallResult α) → Option (Except ℕ α)
  | [] => none
  | .success v :: _ => some (.ok v)
  | .errOther e :: _ => some (.error e)
  | .err429 :: rest => handleAxios429 rest

/-- The sleeps performed by the WebSocket variant's `handleAxios429` on a
trace, given the stream of `Math.random()` draws: one wait of
`randomDelay(30000, 50000)` per 429 encountered. -/
def handleAxios429WaitsV1 {α : Type} : List ℚ → List (CallResult α) → List ℤ
  | _, [] => []
  | _, .success _ :: _ => []
  | _, .errOther _ :: _ => []
  | [], .err429 :: _ => []
  | r :: rs, .err429 :: rest => wait429V1 r :: handleAxios429WaitsV1 rs rest

/-- Model of the bounded retry loop shared by `getAccountDetails` and
`checkAndClaimReward`: `retries` counts the remaining attempts of the
`for (attempt = 1; attempt <= retries; ...)` loop; each list entry is the
outcome one attempt surfaces (`.ok` a normal return, `.error` a caught
exception).  Returns the successful value (if any) and the list of
inter-attempt sleeps; on exhaustion it returns `none` normally (the last
failed attempt only logs, without sleeping or rethrowing). -/
def retryLoop {α : Type} (delayMs : ℕ) : ℕ → List (Except ℕ α) → Option α × List ℕ
  | 0, _ => (none, [])
  | _ + 1, [] => (none, [])
  | _ + 1, .ok a :: _ => (some a, [])
  | n + 1, .error _ :: rest =>
      if n = 0 then (none, [])
      else
        let p := retryLoop delayMs n rest
        (p.1, delayMs :: p.2)

/-- Model of `getAccountDetails(token, index, retries = 3, delayMs = 60000)`
at the level of its attempts. -/
def getAccountDetailsRun (attempts : List (Except ℕ Unit)) : Option Unit × List ℕ :=
  retryLoop 60000 3 attempts

/-- Model of `checkAndClaimReward(token, index, retries = 3, delayMs = 60000)`
at the level of its attempts. -/
def checkAndClaimRewardRun (attempts : List (Except ℕ Unit)) : Option Unit × List ℕ :=
  retryLoop 60000 3 attempts

/-- Model of `getAccountID(token, index, delayMs = 60000)`: an unbounded
`while (true)` loop; each list entry is one attempt's outcome (`some id`
on success, `none` on a caught error).  Returns the resolved id (or
`none` when the trace ends with the loop still running) together with
the number of 60-second sleeps performed. -/
def getAccountIDRun : List (Option ℕ) → Option ℕ × ℕ
  | [] => (none, 0)
  | some v :: _ => (some v, 0)
  | none :: rest =>
      let p := getAccountIDRun rest
      (p.1, p.2 + 1)

/-- The steps of the WebSocket variant's `runPipeline`. -/
inductive PStep where
  | resolveID
  | fetchDetails
  | claimCheck
  | connectWS
deriving DecidableEq

/-- Model of the WebSocket variant's `runPipeline`: four sequential
awaits.  Each emitted pair is a step that executed, tagged with whether
its operation succeeded.  While `getAccountID` has not yet succeeded its
loop is still running and no later step has executed (empty trace);
`getAccountDetails` and `checkAndClaimReward` return normally on every
input -- their bodies catch every attempt's exception -- which the
embedding reflects by `retryLoop` being a total function, so the claim
and connect steps always follow. -/
def runPipeline (idAttempts : List (Option ℕ))
    (detailAttempts claimAttempts : List (Except ℕ Unit)) : List (PStep × Bool) :=
  match (getAccountIDRun idAttempts).1 with
  | none => []
  | some _ =>
      (PStep.resolveID, true) ::
      (PStep.fetchDetails, ((getAccountDetailsRun detailAttempts).1).isSome) ::
      (PStep.claimCheck, ((checkAndClaimRewardRun claimAttempts).1).isSome) ::
      [(PStep.connectWS, true)]

/-- A resource assignment record, `{ gpu, storage }` in `data.json`.
The `gpu` field is `gpuList[Math.floor(Math.random() * gpuList.length)]`,
whose JS value is `undefined` (here `none`) when the catalog is empty;
`storage` is the two-fractional-digit decimal that `toFixed(2)`
renders, modelled as the rational it denotes. -/
structure Assignment where
  gpu : Option String
  storage : ℚ
deriving DecidableEq

/-- The in-memory `dataAssignments` object: an association of workerIDs
to assignments. -/
def Store := List (String × Assignment)

/-- JavaScript array indexing, `undefined` out of range. -/
def jsIndex (l : List String) (i : ℤ) : Option String :=
  if h : 0 ≤ i ∧ i.toNat < l.length then some (l.get ⟨i.toNat, h.2⟩) else none

/-- Model of `getOrAssignResources(workerID)` (identical in both
variants): if the store has no entry for the workerID, draw
`gpuList[Math.floor(Math.random() * gpuList.length)]` and
`(Math.random() * 500).toFixed(2)` (randoms `rg`, `rs`), record and
persist the new assignment; return the stored entry.  The write to
`data.json` is the returned store. -/
def getOrAssignResources (gpuList : List String) (rg rs : ℚ) (st : Store)
    (workerID : String) : Assignment × Store :=
  match st.lookup workerID with
  | some a => (a, st)
  | none =>
      let a : Assignment :=
        { gpu := jsIndex gpuList ⌊rg * (gpuList.length : ℚ)⌋
          storage := toFixed2 (rs * 500) }
      (a, (workerID, a) :: st)

/-- The capacity block of a HEARTBEAT message. -/
structure Capacity where
  availableMemory : ℚ
  availableStorage : ℚ
  availableGPU : Option String
deriving DecidableEq

/-- A message sent on the WebSocket channel. -/
inductive WSMsg where
  | register (workerID : String) (sessionID : String)
  | heartbeat (workerID : String) (cap : Capacity)
deriving DecidableEq

/-- The fixed `setInterval` period of the heartbeat timer started in the
`ws.on('open')` handler. -/
def heartbeatPeriodMs : ℕ := 30000

/-- The `Math.random()` draws one heartbeat tick may consume: `rg`, `rs`
for a first-time resource assignment, `rm` for the memory figure. -/
structure TickRand where
  rg : ℚ
  rs : ℚ
  rm : ℚ

/-- Model of `sendHeartbeat()` in the WebSocket variant: resolve (or
create) the resource assignment, then send a HEARTBEAT whose
`AvailableMemory` is `(Math.random() * 32).toFixed(2)` and whose
storage/GPU figures are the assigned ones. -/
def sendHeartbeat (gpuList : List String) (workerID : String) (st : Store)
    (t : TickRand) : WSMsg × Store :=
  let p := getOrAssignResources gpuList t.rg t.rs st workerID
  (WSMsg.heartbeat workerID
    { availableMemory := toFixed2 (t.rm * 32)
      availableStorage := p.1.storage
      availableGPU := p.1.gpu }, p.2)

/-- The heartbeat messages produced by successive timer ticks, threading
the assignment store. -/
def heartbeatTicks (gpuList : List String) (workerID : String) :
    Store → List TickRand → List WSMsg × Store
  | st, [] => ([], st)
  | st, t :: ts =>
      let p := sendHeartbeat gpuList workerID st t
      let q := heartbeatTicks gpuList workerID p.2 ts
      (p.1 :: q.1, q.2)

/-- Model of the `ws.on('open')` handler followed by `ticks` heartbeat
timer fires: one REGISTER message (carrying the worker identity and the
per-run session id) on entry, then one HEARTBEAT per tick. -/
def openChannelRun (gpuList : List String) (workerID sessionID : String)
    (st : Store) (ticks : List TickRand) : List WSMsg × Store :=
  let p := heartbeatTicks gpuList workerID st ticks
  (WSMsg.register workerID sessionID :: p.1, p.2)

/-- Events a connection session can receive: the `ws` emitter events of
the current channel, plus the firing of a scheduled reconnect timeout. -/
inductive WSEvent where
  | evOpen
  | evMessage
  | evError
  | evClose
  | evReconnectFire
deriving DecidableEq

/-- State of one account's connection session.  `live` counts WebSocket
instances created and not yet closed; `hb` is whether a heartbeat
interval is running; `pending` is the `reconnectPending` flag of the
current `connectWebSocket` scope (instances replaced on reconnect are
inert, so one flag suffices); `timers` lists the delays of scheduled
reconnect timeouts. -/
structure SessState where
  live : ℕ
  hb : Bool
  pending : Bool
  timers : List ℕ
deriving DecidableEq

/-- State right after the first `connectWebSocket` call for an account:
one channel connecting, no heartbeat timer, no pending reconnect. -/
def initSess : SessState :=
  { live := 1, hb := false, pending := false, timers := [] }

/-- Model of `doReconnect()`: if a reconnect is already pending do
nothing, otherwise set the flag and schedule one 30000 ms timeout. -/
def doReconnect (s : SessState) : SessState :=
  if s.pending then s
  else { s with pending := true, timers := s.timers ++ [30000] }

/-- One session transition.  `open` starts the heartbeat interval (after
sending REGISTER); `message` and `error` only log; `close` clears the
heartbeat interval and calls `doReconnect`; a reconnect timeout firing
clears the pending flag and calls `connectWebSocket` again, creating a
new channel. -/
def sessStep (s : SessState) : WSEvent → SessState
  | .evOpen => { s with hb := true }
  | .evMessage => s
  | .evError => s
  | .evClose => doReconnect { s with live := s.live - 1, hb := false }
  | .evReconnectFire =>
      match s.timers with
      | [] => s
      | _ :: rest => { live := s.live + 1, hb := s.hb, pending := false, timers := rest }

/-- Whether an event can actually be delivered in a state: the channel's
own events require a live channel, and a reconnect timeout can only fire
if one is scheduled. -/
def sessEnabled (s : SessState) : WSEvent → Bool
  | .evOpen => s.live == 1 && !s.hb
  | .evMessage => s.live == 1
  | .evError => s.live == 1
  | .evClose => s.live == 1
  | .evReconnectFire => !s.timers.isEmpty

/-- Guarded step: events that cannot occur in a state leave it unchanged,
so every event list denotes a run. -/
def sessStepG (s : SessState) (e : WSEvent) : SessState :=
  if sessEnabled s e then sessStep s e else s

/-- The session state reached after a sequence of delivered events. -/
def runSess (evs : List WSEvent) : SessState :=
  evs.foldl sessStepG initSess

/-- The remote API requests the claims distinguish. -/
inductive ApiReq where
  | claimDetailsReq
  | claimRewardReq
  | appVersionReq
  | userInfoReq
  | streakReq
  | heartbeatPostReq
deriving DecidableEq

/-- The claim-related requests one successful pass of the WebSocket
variant's `checkAndClaimReward` issues, as a function of the `claimed`
flag of the `claim_details` response: `claim_reward` is requested only
inside `if (!details.data.data.claimed)`. -/
def checkAndClaimRewardReqs (claimed : Bool) : List ApiReq :=
  ApiReq.claimDetailsReq :: (if !claimed then [ApiReq.claimRewardReq] else [])

/-- The requests the v2 variant's `runPipeline` issues (the heartbeat
POST stands between the streak check and the claim), as a function of
the `claimed` flag reported by `getClaimDetails`: every call is
unconditional, `claimReward` included. -/
def runPipelineV2Reqs (_claimed : Bool) : List ApiReq :=
  [ApiReq.appVersionReq, ApiReq.userInfoReq, ApiReq.claimDetailsReq,
   ApiReq.streakReq, ApiReq.heartbeatPostReq, ApiReq.claimRewardReq]

/-- After `getOrAssignResources`, the store maps the workerID to the
returned assignment. -/
theorem lookup_getOrAssignResources (gpuList : List String) (rg rs : ℚ)
    (st : Store) (wid : String) :
    List.lookup wid (getOrAssignResources gpuList rg rs st wid).2 =
      some (getOrAssignResources gpuList rg rs st wid).1 := by
  unfold getOrAssignResources
  cases h : List.lookup wid st with
  | none => simp [h, List.lookup]
  | some a => simp [h]

/-- Claim C6: for every worker identity, calling `getOrAssignResources`
twice in sequence returns the identical `(gpu, storage)` pair, whatever
the second call's random draws: the assignment is created at most once,
on the first lookup, and no later lookup for the same identity
overwrites it (the store is returned unchanged). -/
theorem getOrAssignResources_idempotent (gpuList : List String)
    (rg1 rs1 rg2 rs2 : ℚ) (st : Store) (wid : String) :
    getOrAssignResources gpuList rg2 rs2
        (getOrAssignResources gpuList rg1 rs1 st wid).2 wid =
      ((getOrAssignResources gpuList rg1 rs1 st wid).1,
       (getOrAssignResources gpuList rg1 rs1 st wid).2) := by
  have h := lookup_getOrAssignResources gpuList rg1 rs1 st wid
  rw [getOrAssignResources, h]

/-- Whether a channel message is the REGISTER message. -/
def isRegisterMsg : WSMsg → Bool
  | .register _ _ => true
  | .heartbeat _ _ => false

/-- Heartbeat ticks never emit a REGISTER message. -/
theorem heartbeatTicks_no_register (gpuList : List String) (wid : String) :
    ∀ (ticks : List TickRand) (st : Store),
      ((heartbeatTicks gpuList wid st ticks).1.countP isRegisterMsg) = 0 := by
  intro ticks
  induction ticks with
  | nil => intro st; simp [heartbeatTicks]
  | cons t ts ih =>
      intro st
      simp [heartbeatTicks, sendHeartbeat, List.countP_cons, isRegisterMsg, ih]

/-- When the store already holds an assignment `a` for the worker, every
tick reuses `a` and leaves the store unchanged. -/
theorem heartbeatTicks_assigned (gpuList : List String) (wid : String)
    (a : Assignment) :
    ∀ (ticks : List TickRand) (st : Store),
      List.lookup wid st = some a →
      heartbeatTicks gpuList wid st ticks =
        (ticks.map fun u =>
          WSMsg.heartbeat wid
            { availableMemory := toFixed2 (u.rm * 32)
              availableStorage := a.storage
              availableGPU := a.gpu }, st) := by
  intro ticks
  induction ticks with
  | nil => intro st _; simp [heartbeatTicks]
  | cons t ts ih =>
      intro st h
      have hsend : sendHeartbeat gpuList wid st t =
          (WSMsg.heartbeat wid
            { availableMemory := toFixed2 (t.rm * 32)
              availableStorage := a.storage
              availableGPU := a.gpu }, st) := by
        simp [sendHeartbeat, getOrAssignResources, h]
      simp [heartbeatTicks, hsend, ih st h]

/-- Claim C5: when a channel reaches the Open state, exactly one REGISTER
message carrying the worker identity and the session id is sent on
entry; the heartbeat timer has the fixed 30-second period, and each tick
resolves the worker's resource assignment (creating it on the first tick
if absent) and sends a HEARTBEAT whose memory figure is freshly
randomized from that tick's draw while the storage and GPU figures are
the fixed assigned values. -/
theorem openChannelRun_spec (gpuList : List String) (wid sid : String)
    (st : Store) (ticks : List TickRand) (t : TickRand) (ts : List TickRand) :
    ((openChannelRun gpuList wid sid st ticks).1.countP isRegisterMsg) = 1 ∧
    (openChannelRun gpuList wid sid st ticks).1.head? =
      some (WSMsg.register wid sid) ∧
    (openChannelRun gpuList wid sid st (t :: ts)).1 =
      WSMsg.register wid sid ::
      WSMsg.heartbeat wid
        { availableMemory := toFixed2 (t.rm * 32)
          availableStorage := (getOrAssignResources gpuList t.rg t.rs st wid).1.storage
          availableGPU := (getOrAssignResources gpuList t.rg t.rs st wid).1.gpu } ::
      (ts.map fun u =>
        WSMsg.heartbeat wid
          { availableMemory := toFixed2 (u.rm * 32)
            availableStorage := (getOrAssignResources gpuList t.rg t.rs st wid).1.storage
            availableGPU := (getOrAssignResources gpuList t.rg t.rs st wid).1.gpu }) ∧
    heartbeatPeriodMs = 30000 := by
  refine ⟨?_, ?_, ?_, rfl⟩
  · simp [openChannelRun, List.countP_cons, isRegisterMsg,
      heartbeatTicks_no_register]
  · simp [openChannelRun]
  · have hrest := heartbeatTicks_assigned gpuList wid
      (getOrAssignResources gpuList t.rg t.rs st wid).1 ts
      (getOrAssignResources gpuList t.rg t.rs st wid).2
      (lookup_getOrAssignResources gpuList t.rg t.rs st wid)
    simp [openChannelRun, heartbeatTicks, sendHeartbeat, hrest]

/-- Range of `randomDelay`: for a `Math.random()` draw in `[0, 1)` the
result is an integer in `[minMs, maxMs]`. -/
theorem randomDelay_mem_range (r : ℚ) (minMs maxMs : ℕ) (hmm : minMs ≤ maxMs)
    (h0 : 0 ≤ r) (h1 : r < 1) :
    (minMs : ℤ) ≤ randomDelay r minMs maxMs ∧
      randomDelay r minMs maxMs ≤ (maxMs : ℤ) := by
  unfold randomDelay
  have hle : (minMs : ℚ) ≤ (maxMs : ℚ) := by exact_mod_cast hmm
  have hN : (0 : ℚ) < (maxMs : ℚ) - (minMs : ℚ) + 1 := by linarith
  constructor
  · have hf : (0 : ℤ) ≤ ⌊r * ((maxMs : ℚ) - (minMs : ℚ) + 1)⌋ :=
      Int.floor_nonneg.mpr (mul_nonneg h0 hN.le)
    omega
  · have hlt : r * ((maxMs : ℚ) - (minMs : ℚ) + 1) <
        ((maxMs : ℤ) - (minMs : ℤ) + 1 : ℤ) := by
      have := mul_lt_mul_of_pos_right h1 hN
      rw [one_mul] at this
      push_cast
      linarith
    have hf : ⌊r * ((maxMs : ℚ) - (minMs : ℚ) + 1)⌋ <
        (maxMs : ℤ) - (minMs : ℤ) + 1 := Int.floor_lt.mpr hlt
    omega

/-- Every integer in `[minMs, maxMs]` is attained by `randomDelay`, with
an equal-width preimage of draws (the law is uniform over the range). -/
theorem randomDelay_attains (minMs maxMs k : ℕ) (hk1 : minMs ≤ k)
    (hk2 : k ≤ maxMs) :
    ∃ r : ℚ, 0 ≤ r ∧ r < 1 ∧ randomDelay r minMs maxMs = (k : ℤ) := by
  have hle : (minMs : ℚ) ≤ (maxMs : ℚ) := by
    exact_mod_cast le_trans hk1 hk2
  have hN : (0 : ℚ) < (maxMs : ℚ) - (minMs : ℚ) + 1 := by linarith
  refine ⟨((k : ℚ) - (minMs : ℚ)) / ((maxMs : ℚ) - (minMs : ℚ) + 1), ?_, ?_, ?_⟩
  · apply div_nonneg _ hN.le
    have : (minMs : ℚ) ≤ (k : ℚ) := by exact_mod_cast hk1
    linarith
  · rw [div_lt_one hN]
    have : (k : ℚ) ≤ (maxMs : ℚ) := by exact_mod_cast hk2
    linarith
  · unfold randomDelay
    rw [div_mul_cancel₀ _ hN.ne.symm]
    have : ((k : ℚ) - (minMs : ℚ)) = (((k : ℤ) - (minMs : ℤ) : ℤ) : ℚ) := by
      push_cast; ring
    rw [this, Int.floor_intCast]
    omega

/-- Wait range of the WebSocket variant's 429 backoff. -/
theorem wait429V1_range (r : ℚ) (h0 : 0 ≤ r) (h1 : r < 1) :
    (30000 : ℤ) ≤ wait429V1 r ∧ wait429V1 r ≤ 50000 := by
  have h := randomDelay_mem_range r 30000 50000 (by norm_num) h0 h1
  exact_mod_cast h

/-- Wait range of the v2 variant's 429 backoff. -/
theorem wait429V2_range (r : ℚ) (h0 : 0 ≤ r) (h1 : r < 1) :
    (30000 : ℤ) ≤ wait429V2 r ∧ wait429V2 r ≤ 100000 := by
  have h := randomDelay_mem_range r 30000 100000 (by norm_num) h0 h1
  exact_mod_cast h

/-- A leading block of 429 outcomes is invisible to the caller of
`handleAxios429`: the same call is retried and no enclosing retry budget
is consumed. -/
theorem handleAxios429_replicate_429 {α : Type} (n : ℕ)
    (l : List (CallResult α)) :
    handleAxios429 (List.replicate n .err429 ++ l) = handleAxios429 l := by
  induction n with
  | zero => simp
  | succ m ih => simpa [List.replicate_succ, handleAxios429] using ih

/-- Every sleep the WebSocket variant's `handleAxios429` performs lies in
`[30000, 50000]` milliseconds. -/
theorem handleAxios429WaitsV1_mem_range {α : Type} :
    ∀ (rs : List ℚ) (outs : List (CallResult α)),
      (∀ q ∈ rs, 0 ≤ q ∧ q < 1) →
      ∀ w ∈ handleAxios429WaitsV1 rs outs, (30000 : ℤ) ≤ w ∧ w ≤ 50000 := by
  intro rs outs
  induction outs generalizing rs with
  | nil => intro _ w hw; simp [handleAxios429WaitsV1] at hw
  | cons o rest ih =>
      intro hrs w hw
      cases o with
      | success v => simp [handleAxios429WaitsV1] at hw
      | errOther e => simp [handleAxios429WaitsV1] at hw
      | err429 =>
          cases rs with
          | nil => simp [handleAxios429WaitsV1] at hw
          | cons q qs =>
              simp only [handleAxios429WaitsV1, List.mem_cons] at hw
              rcases hw with rfl | hw
              · exact wait429V1_range q (hrs q (by simp)).1 (hrs q (by simp)).2
              · exact ih qs (fun x hx => hrs x (by simp [hx])) w hw

/-- Claim C1 counterexample: the two `handleAxios429` implementations do
not draw their 429 backoff from the same range.  At the same
`Math.random()` draw 9/10 the WebSocket variant sleeps 48 seconds
(its call is `randomDelay(30000, 50000)`) while a uniform 30-100 second
draw -- the one the v2 variant performs -- gives 93 seconds, so the
claimed 30-100 second law does not hold for every wrapped call. -/
theorem handleAxios429_wait_counterexample :
    wait429V1 (9/10) = 48000 ∧ wait429V2 (9/10) = 93000 ∧
      wait429V1 (9/10) ≠ wait429V2 (9/10) := by
  refine ⟨?_, ?_, ?_⟩ <;> norm_num [wait429V1, wait429V2, randomDelay]

/-- Claim C1 (amended): on HTTP 429 `handleAxios429` sleeps a random
duration drawn uniformly from 30-50 seconds in the WebSocket variant and
30-100 seconds in the v2 variant, then retries the same call,
indefinitely; 429 outcomes are invisible to any enclosing retry budget,
and a non-429 error is rethrown to the caller unchanged. -/
theorem handleAxios429_spec (r : ℚ) (h0 : 0 ≤ r) (h1 : r < 1) :
    (∀ (n : ℕ) (l : List (CallResult ℕ)),
       handleAxios429 (List.replicate n .err429 ++ l) = handleAxios429 l) ∧
    (∀ n : ℕ, handleAxios429 (α := ℕ) (List.replicate n .err429) = none) ∧
    (∀ (n v : ℕ) (l : List (CallResult ℕ)),
       handleAxios429 (List.replicate n .err429 ++ .success v :: l) =
         some (.ok v)) ∧
    (∀ (n e : ℕ) (l : List (CallResult ℕ)),
       handleAxios429 (List.replicate n .err429 ++ .errOther e :: l) =
         some (.error e)) ∧
    ((30000 : ℤ) ≤ wait429V1 r ∧ wait429V1 r ≤ 50000) ∧
    ((30000 : ℤ) ≤ wait429V2 r ∧ wait429V2 r ≤ 100000) ∧
    (∀ k : ℕ, 30000 ≤ k → k ≤ 50000 →
       ∃ q : ℚ, 0 ≤ q ∧ q < 1 ∧ wait429V1 q = (k : ℤ)) ∧
    (∀ k : ℕ, 30000 ≤ k → k ≤ 100000 →
       ∃ q : ℚ, 0 ≤ q ∧ q < 1 ∧ wait429V2 q = (k : ℤ)) ∧
    (∀ (rs : List ℚ) (outs : List (CallResult ℕ)),
       (∀ q ∈ rs, 0 ≤ q ∧ q < 1) →
       ∀ w ∈ handleAxios429WaitsV1 rs outs, (30000 : ℤ) ≤ w ∧ w ≤ 50000) := by
  refine ⟨handleAxios429_replicate_429, ?_, ?_, ?_,
    wait429V1_range r h0 h1, wait429V2_range r h0 h1, ?_, ?_,
    fun rs outs => handleAxios429WaitsV1_mem_range rs outs⟩
  · intro n
    have := handleAxios429_replicate_429 (α := ℕ) n []
    simpa [handleAxios429] using this
  · intro n v l
    rw [handleAxios429_replicate_429]
    rfl
  · intro n e l
    rw [handleAxios429_replicate_429]
    rfl
  · intro k hk1 hk2
    exact randomDelay_attains 30000 50000 k hk1 hk2
  · intro k hk1 hk2
    exact randomDelay_attains 30000 100000 k hk1 hk2

/-- Witness for the amended claim C1 at the concrete draw 1/2. -/
theorem handleAxios429_spec_witness :
    (30000 : ℤ) ≤ wait429V1 (1/2) ∧ wait429V1 (1/2) ≤ 50000 :=
  (handleAxios429_spec (1/2) (by norm_num) (by norm_num)).2.2.2.2.1

/-- The bounded retry loop looks at most at its first `n` attempts. -/
theorem retryLoop_take {α : Type} (d : ℕ) :
    ∀ (n : ℕ) (l : List (Except ℕ α)),
      retryLoop d n l = retryLoop d n (l.take n) := by
  intro n
  induction n with
  | zero => intro l; rfl
  | succ m ih =>
      intro l
      cases l with
      | nil => rfl
      | cons x rest =>
          cases x with
          | ok a => rfl
          | error e =>
              by_cases hm : m = 0
              · subst hm; rfl
              · simp [retryLoop, hm, List.take, ih rest]

/-- When every attempt fails, the bounded retry loop surfaces no value --
but it does return (the exhaustion path only logs). -/
theorem retryLoop_all_error {α : Type} (d : ℕ) :
    ∀ (n : ℕ) (l : List (Except ℕ α)),
      (∀ x ∈ l, ∃ e, x = .error e) → (retryLoop d n l).1 = none := by
  intro n
  induction n with
  | zero => intro l _; rfl
  | succ m ih =>
      intro l hl
      cases l with
      | nil => rfl
      | cons x rest =>
          rcases hl x (by simp) with ⟨e, rfl⟩
          by_cases hm : m = 0
          · subst hm; rfl
          · simp [retryLoop, hm, ih rest fun y hy => hl y (by simp [hy])]

/-- The indefinite identity-resolution loop sleeps 60 seconds after each
of a block of failures and is still running after any number of them. -/
theorem getAccountIDRun_replicate (n : ℕ) :
    getAccountIDRun (List.replicate n none) = (none, n) := by
  induction n with
  | zero => rfl
  | succ m ih => simp [List.replicate_succ, getAccountIDRun, ih]

/-- The indefinite identity-resolution loop returns the first success,
after one 60-second sleep per preceding failure. -/
theorem getAccountIDRun_replicate_success (n v : ℕ) (rest : List (Option ℕ)) :
    getAccountIDRun (List.replicate n none ++ some v :: rest) = (some v, n) := by
  induction n with
  | zero => rfl
  | succ m ih => simp [List.replicate_succ, getAccountIDRun, ih]

/-- Claim C2: on non-429 failures, `getAccountDetails` and
`checkAndClaimReward` try at most 3 attempts with a fixed 60-second
sleep between attempts and return normally (surfacing no value) when the
budget is exhausted, while `getAccountID` retries indefinitely with the
same 60-second sleep and returns only on success. -/
theorem retryPolicy_spec :
    (∀ (a : Unit) (rest : List (Except ℕ Unit)),
       getAccountDetailsRun (.ok a :: rest) = (some a, [])) ∧
    (∀ (e : ℕ) (a : Unit) (rest : List (Except ℕ Unit)),
       getAccountDetailsRun (.error e :: .ok a :: rest) = (some a, [60000])) ∧
    (∀ (e1 e2 : ℕ) (a : Unit) (rest : List (Except ℕ Unit)),
       getAccountDetailsRun (.error e1 :: .error e2 :: .ok a :: rest) =
         (some a, [60000, 60000])) ∧
    (∀ (e1 e2 e3 : ℕ) (rest : List (Except ℕ Unit)),
       getAccountDetailsRun (.error e1 :: .error e2 :: .error e3 :: rest) =
         (none, [60000, 60000])) ∧
    (∀ attempts : List (Except ℕ Unit),
       getAccountDetailsRun attempts = getAccountDetailsRun (attempts.take 3)) ∧
    (∀ attempts : List (Except ℕ Unit),
       checkAndClaimRewardRun attempts = getAccountDetailsRun attempts) ∧
    (∀ (e1 e2 e3 : ℕ) (rest : List (Except ℕ Unit)),
       checkAndClaimRewardRun (.error e1 :: .error e2 :: .error e3 :: rest) =
         (none, [60000, 60000])) ∧
    (∀ n : ℕ, getAccountIDRun (List.replicate n none) = (none, n)) ∧
    (∀ (n v : ℕ) (rest : List (Option ℕ)),
       getAccountIDRun (List.replicate n none ++ some v :: rest) =
         (some v, n)) := by
  refine ⟨fun a rest => rfl, fun e a rest => rfl, fun e1 e2 a rest => rfl,
    fun e1 e2 e3 rest => rfl, fun attempts => retryLoop_take 60000 3 attempts,
    fun attempts => rfl, fun e1 e2 e3 rest => rfl,
    getAccountIDRun_replicate, getAccountIDRun_replicate_success⟩

/-- Claim C3: the WebSocket variant's pipeline runs strictly in the order
identity resolution, account-details fetch, claim check, WebSocket
connect; and even when every attempt of the details fetch fails, the
claim step and the connect step still execute. -/
theorem runPipeline_order (idAttempts : List (Option ℕ)) (v : ℕ)
    (dA cA : List (Except ℕ Unit))
    (hid : (getAccountIDRun idAttempts).1 = some v)
    (hd : ∀ x ∈ dA, ∃ e, x = Except.error e) :
    runPipeline idAttempts dA cA =
      [(PStep.resolveID, true),
       (PStep.fetchDetails, false),
       (PStep.claimCheck, ((checkAndClaimRewardRun cA).1).isSome),
       (PStep.connectWS, true)] ∧
    (runPipeline idAttempts dA cA).map Prod.fst =
      [PStep.resolveID, PStep.fetchDetails, PStep.claimCheck,
       PStep.connectWS] ∧
    (PStep.connectWS, true) ∈ runPipeline idAttempts dA cA := by
  have hdet : (getAccountDetailsRun dA).1 = none :=
    retryLoop_all_error 60000 3 dA hd
  have hrun : runPipeline idAttempts dA cA =
      [(PStep.resolveID, true),
       (PStep.fetchDetails, false),
       (PStep.claimCheck, ((checkAndClaimRewardRun cA).1).isSome),
       (PStep.connectWS, true)] := by
    unfold runPipeline
    rw [hid]
    simp [hdet]
  refine ⟨hrun, ?_, ?_⟩ <;> simp [hrun]

/-- Witness for claim C3 at a concrete run: identity resolves at once,
all three detail attempts fail, the claim check succeeds; the claim and
connect steps still execute, in order. -/
theorem runPipeline_order_witness :
    runPipeline [some 7] [.error 0, .error 1, .error 2] [.ok ()] =
      [(PStep.resolveID, true), (PStep.fetchDetails, false),
       (PStep.claimCheck, true), (PStep.connectWS, true)] := by
  have h := runPipeline_order [some 7] 7 [.error 0, .error 1, .error 2]
    [.ok ()] rfl (by
      intro x hx
      simp only [List.mem_cons, List.not_mem_nil, or_false] at hx
      rcases hx with rfl | rfl | rfl
      · exact ⟨0, rfl⟩
      · exact ⟨1, rfl⟩
      · exact ⟨2, rfl⟩)
  simpa using h.1

/-- The strengthened session invariant: at most one live channel or
pending timer in total, the pending flag tracks exactly whether a timer
is scheduled, every scheduled reconnect delay is 30 seconds, and a
running heartbeat interval implies a live channel. -/
def SessInv (s : SessState) : Prop :=
  s.live + s.timers.length ≤ 1 ∧
  (s.pending = true ↔ s.timers ≠ []) ∧
  (s.hb = true → s.live = 1) ∧
  (∀ d ∈ s.timers, d = 30000)

/-- The initial session state satisfies the invariant. -/
theorem sessInv_init : SessInv initSess := by
  refine ⟨by simp [initSess], by simp [initSess], by simp [initSess], ?_⟩
  intro d hd
  simp [initSess] at hd

/-- The invariant is preserved by every deliverable event. -/
theorem sessInv_step (s : SessState) (e : WSEvent) (h : SessInv s) :
    SessInv (sessStepG s e) := by
  obtain ⟨hsum, hpend, hhb, htim⟩ := h
  unfold sessStepG
  by_cases he : sessEnabled s e = true
  case neg =>
    rw [if_neg he]
    exact ⟨hsum, hpend, hhb, htim⟩
  case pos =>
    rw [if_pos he]
    cases e with
    | evOpen =>
        simp only [sessEnabled, Bool.and_eq_true, beq_iff_eq] at he
        exact ⟨hsum, hpend, fun _ => he.1, htim⟩
    | evMessage => exact ⟨hsum, hpend, hhb, htim⟩
    | evError => exact ⟨hsum, hpend, hhb, htim⟩
    | evClose =>
        simp only [sessEnabled, beq_iff_eq] at he
        have htnil : s.timers = [] := by
          cases htimers : s.timers with
          | nil => rfl
          | cons d rest =>
              rw [he, htimers] at hsum
              simp at hsum
        have hp : s.pending = false := by
          cases hpb : s.pending with
          | false => rfl
          | true => exact absurd (hpend.mp hpb) (by simp [htnil])
        simp only [sessStep, doReconnect, hp, Bool.false_eq_true, if_false,
          htnil]
        refine ⟨by simp [he], by simp, by simp, ?_⟩
        intro d hd
        simpa using hd
    | evReconnectFire =>
        simp only [sessEnabled, Bool.not_eq_true', List.isEmpty_eq_false] at he
        cases htimers : s.timers with
        | nil => exact absurd htimers he
        | cons d rest =>
            have hlive : s.live = 0 ∧ rest = [] := by
              rw [htimers] at hsum
              simp only [List.length_cons] at hsum
              constructor
              · omega
              · have : rest.length = 0 := by omega
                exact List.eq_nil_of_length_eq_zero this
            simp only [sessStep, htimers]
            refine ⟨by simp [hlive.1, hlive.2], by simp [hlive.2],
              by simp [hlive.1], ?_⟩
            intro x hx
            rw [hlive.2] at hx
            simp at hx

/-- The invariant holds along every run. -/
theorem sessInv_run (evs : List WSEvent) : SessInv (runSess evs) := by
  suffices h : ∀ (l : List WSEvent) (s : SessState), SessInv s →
      SessInv (l.foldl sessStepG s) by
    exact h evs initSess sessInv_init
  intro l
  induction l with
  | nil => intro s hs; exact hs
  | cons e rest ih => intro s hs; exact ih _ (sessInv_step s e hs)

/-- Claim C4: for every sequence of session events, on close the
heartbeat timer is cancelled and one reconnect is scheduled with a
30-second delay only if none is pending, so at most one live channel and
at most one pending-reconnect timer exist per account at any instant;
and the reconnect-pending flag is cleared only by the timer firing,
which is exactly when the new connecting attempt begins. -/
theorem connectWebSocket_session_spec :
    (∀ evs : List WSEvent,
       (runSess evs).live ≤ 1 ∧ (runSess evs).timers.length ≤ 1 ∧
       (∀ d ∈ (runSess evs).timers, d = 30000) ∧
       ((runSess evs).pending = true ↔ (runSess evs).timers ≠ [])) ∧
    (∀ s : SessState, (sessStep s .evClose).hb = false) ∧
    (∀ s : SessState, s.pending = false →
       (sessStep s .evClose).timers = s.timers ++ [30000] ∧
       (sessStep s .evClose).pending = true) ∧
    (∀ s : SessState, s.pending = true →
       (sessStep s .evClose).timers = s.timers) ∧
    (∀ (s : SessState) (e : WSEvent), (sessStepG s e).pending = false →
       s.pending = false ∨
       (e = .evReconnectFire ∧ (sessStepG s e).live = s.live + 1)) := by
  refine ⟨?_, ?_, ?_, ?_, ?_⟩
  · intro evs
    obtain ⟨hsum, hpend, _, htim⟩ := sessInv_run evs
    exact ⟨by omega, by omega, htim, hpend⟩
  · intro s
    by_cases hp : s.pending = true <;>
      simp [sessStep, doReconnect, hp]
  · intro s hp
    simp [sessStep, doReconnect, hp]
  · intro s hp
    simp [sessStep, doReconnect, hp]
  · intro s e h
    cases e with
    | evOpen =>
        left
        by_cases he : sessEnabled s .evOpen = true <;>
          simpa [sessStepG, he, sessStep] using h
    | evMessage =>
        left
        by_cases he : sessEnabled s .evMessage = true <;>
          simpa [sessStepG, he, sessStep] using h
    | evError =>
        left
        by_cases he : sessEnabled s .evError = true <;>
          simpa [sessStepG, he, sessStep] using h
    | evClose =>
        left
        by_cases he : sessEnabled s .evClose = true
        · by_cases hp : s.pending = true
          · exfalso
            rw [sessStepG, if_pos he] at h
            simp [sessStep, doReconnect, hp] at h
          · simpa using hp
        · rw [sessStepG, if_neg he] at h
          exact h
    | evReconnectFire =>
        by_cases he : sessEnabled s .evReconnectFire = true
        · cases htimers : s.timers with
          | nil =>
              rw [sessEnabled, htimers] at he
              simp at he
          | cons d rest =>
              right
              refine ⟨rfl, ?_⟩
              rw [sessStepG, if_pos he]
              simp [sessStep, htimers]
        · rw [sessStepG, if_neg he] at h
          exact Or.inl h

/-- Witness for claim C4 at concrete states: a close with no reconnect
pending schedules exactly the 30-second timer, and a close while one is
pending schedules no second timer. -/
theorem connectWebSocket_session_spec_witness :
    (sessStep { live := 1, hb := true, pending := false, timers := [] }
        .evClose).timers = [30000] ∧
    (sessStep { live := 0, hb := false, pending := true, timers := [30000] }
        .evClose).timers = [30000] := by
  have h := connectWebSocket_session_spec
  constructor
  · have hs := (h.2.2.1
      { live := 1, hb := true, pending := false, timers := [] } rfl).1
    simpa using hs
  · exact h.2.2.2.1
      { live := 0, hb := false, pending := true, timers := [30000] } rfl

/-- Claim C7: startup exits with status 1 -- before any network call --
when no valid credential records remain, when the proxy source is
unreadable, or when the sanitized proxy list is shorter than the
credential list; malformed credential lines (not exactly two
colon-separated fields) are skipped and are not fatal. -/
theorem startup_spec (ac pc bad : String) (xs ys : List String) :
    ((splitWsRuns ac).filterMap parseAccountLine = [] →
       ∀ p : Option String,
         startup ac p = .exitCode 1 ∧ startsNetworkPhase ac p = false) ∧
    (startup ac none = .exitCode 1 ∧ startsNetworkPhase ac none = false) ∧
    (((splitWsRuns pc).filterMap sanitizeProxyUrl).length <
        ((splitWsRuns ac).filterMap parseAccountLine).length →
       startup ac (some pc) = .exitCode 1 ∧
       startsNetworkPhase ac (some pc) = false) ∧
    (parseAccountLine bad = none →
       (xs ++ bad :: ys).filterMap parseAccountLine =
         (xs ++ ys).filterMap parseAccountLine) ∧
    (parseAccountLine "a:b:c" = none ∧ parseAccountLine "nocolon" = none ∧
       parseAccountLine "" = none) ∧
    ((splitWsRuns ac).filterMap parseAccountLine ≠ [] →
       ¬ ((splitWsRuns pc).filterMap sanitizeProxyUrl).length <
           ((splitWsRuns ac).filterMap parseAccountLine).length →
       startup ac (some pc) =
         .ok ((splitWsRuns ac).filterMap parseAccountLine)
            ((splitWsRuns pc).filterMap sanitizeProxyUrl)) := by
  refine ⟨?_, ?_, ?_, ?_, ⟨rfl, rfl, rfl⟩, ?_⟩
  · intro h p
    constructor
    · simp [startup, h]
    · simp [startsNetworkPhase, startup, h]
  · constructor
    · by_cases h : (splitWsRuns ac).filterMap parseAccountLine = [] <;>
        simp [startup, h]
    · by_cases h : (splitWsRuns ac).filterMap parseAccountLine = [] <;>
        simp [startsNetworkPhase, startup, h]
  · intro hlt
    have hne : (splitWsRuns ac).filterMap parseAccountLine ≠ [] := by
      intro h
      rw [h] at hlt
      simp at hlt
    constructor
    · simp [startup, hne, hlt]
    · simp [startsNetworkPhase, startup, hne, hlt]
  · intro hbad
    simp [List.filterMap_append, List.filterMap_cons, hbad]
  · intro hne hnlt
    simp [startup, hne, hnlt]

/-- Witness for claim C7: one well-formed credential line but an empty
proxy source makes startup exit 1 without reaching the network phase. -/
theorem startup_spec_witness :
    startup "a:b" (some " ") = StartupResult.exitCode 1 ∧
    startsNetworkPhase "a:b" (some " ") = false :=
  (startup_spec "a:b" " " "" [] []).2.2.1 (by decide)

/-- Claim C8 counterexample: in the v2 variant's `runPipeline` the
`claim_reward` request is issued even when the preceding `claim_details`
response reported `claimed = true`. -/
theorem claimReward_unconditional_counterexample :
    ApiReq.claimRewardReq ∈ runPipelineV2Reqs true := by decide

/-- Claim C8 (amended): the WebSocket variant's `checkAndClaimReward`
issues `claim_reward` exactly when `claim_details` reports
`claimed = false`; the v2 variant's pipeline issues `claim_reward`
unconditionally, whatever `claim_details` reported. -/
theorem claimGating_spec :
    (∀ claimed : Bool,
       (ApiReq.claimRewardReq ∈ checkAndClaimRewardReqs claimed ↔
         claimed = false)) ∧
    (∀ claimed : Bool,
       (checkAndClaimRewardReqs claimed).head? =
         some ApiReq.claimDetailsReq) ∧
    (∀ claimed : Bool, ApiReq.claimRewardReq ∈ runPipelineV2Reqs claimed) := by
  refine ⟨?_, ?_, ?_⟩ <;> decide

/-- The trimmed character list is empty exactly when every character is
whitespace. -/
theorem jsTrimList_eq_nil_iff (l : List Char) :
    jsTrimList l = [] ↔ ∀ c ∈ l, isJsWhitespace c = true := by
  unfold jsTrimList
  rw [List.reverse_eq_nil_iff, List.dropWhile_eq_nil_iff]
  constructor
  · intro h c hc
    have hmem : c ∈ l.takeWhile isJsWhitespace ∨
        c ∈ l.dropWhile isJsWhitespace := by
      conv at hc => rw [← List.takeWhile_append_dropWhile
        (p := isJsWhitespace) (l := l)]
      exact List.mem_append.mp hc
    rcases hmem with h1 | h1
    · exact List.mem_takeWhile_imp h1
    · exact h c (List.mem_reverse.mpr h1)
  · intro h c hc
    exact h c ((List.dropWhile_sublist isJsWhitespace).mem
      (List.mem_reverse.mp hc))

/-- The trimmed string is empty exactly when the input is empty or
whitespace-only. -/
theorem jsTrim_eq_empty_iff (s : String) :
    jsTrim s = "" ↔ s.toList.all isJsWhitespace = true := by
  rw [List.all_eq_true]
  constructor
  · intro h
    exact (jsTrimList_eq_nil_iff s.toList).mp (congrArg String.data h)
  · intro h
    have := (jsTrimList_eq_nil_iff s.toList).mpr h
    exact String.ext this

/-- A string with `http://` prepended always passes the scheme test. -/
theorem hasHttpScheme_prepend (t : String) :
    hasHttpScheme ("http://" ++ t) = true := by
  unfold hasHttpScheme
  have hdata : ("http://" ++ t).toList = "http://".toList ++ t.toList := by
    simp [String.toList]
  have htake : ("http://".toList ++ t.toList).take 7 = "http://".toList := by
    rw [List.take_append_of_le_length (by decide)]
    decide
  rw [hdata, htake]
  have hmap : (List.map lowerAscii "http://".toList == "http://".toList) = true := by
    decide
  rw [hmap, Bool.true_or]

/-- Claim C9: `sanitizeProxyUrl` returns `null` exactly for empty or
whitespace-only entries; otherwise it returns the trimmed entry
unchanged when it already carries an `http://` or `https://` scheme
(case-insensitively) and the trimmed entry with `http://` prepended
otherwise -- so every returned proxy URL carries an http(s) scheme. -/
theorem sanitizeProxyUrl_spec (raw : String) :
    (sanitizeProxyUrl raw = none ↔ raw.toList.all isJsWhitespace = true) ∧
    (jsTrim raw ≠ "" → hasHttpScheme (jsTrim raw) = true →
       sanitizeProxyUrl raw = some (jsTrim raw)) ∧
    (jsTrim raw ≠ "" → hasHttpScheme (jsTrim raw) = false →
       sanitizeProxyUrl raw = some ("http://" ++ jsTrim raw)) ∧
    (∀ out : String, sanitizeProxyUrl raw = some out →
       hasHttpScheme out = true) := by
  have hempty : jsTrim "" = "" := rfl
  refine ⟨?_, ?_, ?_, ?_⟩
  · rw [← jsTrim_eq_empty_iff]
    unfold sanitizeProxyUrl
    by_cases h0 : raw = ""
    · simp [h0, hempty]
    · rw [if_neg h0]
      by_cases h1 : jsTrim raw = ""
      · simp [h1]
      · rw [if_neg h1]
        by_cases h2 : hasHttpScheme (jsTrim raw) <;> simp [h2, h1]
  · intro h1 h2
    have h0 : raw ≠ "" := by
      intro hr
      exact h1 (by rw [hr]; exact hempty)
    unfold sanitizeProxyUrl
    rw [if_neg h0, if_neg h1, if_pos h2]
  · intro h1 h2
    have h0 : raw ≠ "" := by
      intro hr
      exact h1 (by rw [hr]; exact hempty)
    unfold sanitizeProxyUrl
    rw [if_neg h0, if_neg h1, if_neg (by simp [h2])]
  · intro out hout
    unfold sanitizeProxyUrl at hout
    by_cases h0 : raw = ""
    · rw [if_pos h0] at hout
      exact absurd hout (by simp)
    · rw [if_neg h0] at hout
      by_cases h1 : jsTrim raw = ""
      · rw [if_pos h1] at hout
        exact absurd hout (by simp)
      · rw [if_neg h1] at hout
        by_cases h2 : hasHttpScheme (jsTrim raw) = true
        · rw [if_pos h2] at hout
          obtain rfl : jsTrim raw = out := by
            simpa using hout
          exact h2
        · rw [if_neg h2] at hout
          obtain rfl : "http://" ++ jsTrim raw = out := by
            simpa using hout
          exact hasHttpScheme_prepend (jsTrim raw)

/-- Witness for claim C9 at a concrete entry: whitespace is trimmed and
the missing scheme is prepended. -/
theorem sanitizeProxyUrl_spec_witness :
    sanitizeProxyUrl "  example.com " = some "http://example.com" := by
  have h := (sanitizeProxyUrl_spec "  example.com ").2.2.1
    (by decide) (by decide)
  rw [h]
  rfl

/-- The memory figure carried by a channel message, when it is a
HEARTBEAT. -/
def heartbeatMemory : WSMsg → Option ℚ
  | .heartbeat _ c => some c.availableMemory
  | .register _ _ => none

/-- The two-digit rounding of a nonnegative number is nonnegative. -/
theorem toFixed2_nonneg (q : ℚ) (h : 0 ≤ q) : 0 ≤ toFixed2 q := by
  unfold toFixed2
  apply div_nonneg _ (by norm_num)
  have : (0 : ℤ) ≤ ⌊q * 100 + 1/2⌋ := by
    apply Int.floor_nonneg.mpr
    have : 0 ≤ q * 100 := by linarith
    linarith
  exact_mod_cast this

/-- The two-digit rounding of a number below a natural bound stays at or
below that bound (rounding up can reach it exactly). -/
theorem toFixed2_le_nat (q : ℚ) (n : ℕ) (h : q < n) : toFixed2 q ≤ n := by
  unfold toFixed2
  have h1 : ⌊q * 100 + 1/2⌋ < (n : ℤ) * 100 + 1 := by
    apply Int.floor_lt.mpr
    push_cast
    linarith
  have h2 : ⌊q * 100 + 1/2⌋ ≤ (n : ℤ) * 100 := by omega
  rw [div_le_iff₀ (by norm_num)]
  calc ((⌊q * 100 + 1/2⌋ : ℤ) : ℚ) ≤ (((n : ℤ) * 100 : ℤ) : ℚ) := by
        exact_mod_cast h2
    _ = (n : ℚ) * 100 := by push_cast; ring

/-- Claim C10 counterexample: at the `Math.random()` draw
`(2^53 - 1) / 2^53` -- the largest value a double-precision
`Math.random()` can return -- the heartbeat's `AvailableMemory` figure,
`(Math.random() * 32).toFixed(2)`, rounds up to exactly 32, which is not
in the half-open interval `[0, 32)`. -/
theorem availableMemory_boundary_counterexample :
    (0 : ℚ) ≤ (2 ^ 53 - 1) / 2 ^ 53 ∧ ((2 ^ 53 - 1) / 2 ^ 53 : ℚ) < 1 ∧
    heartbeatMemory
        (sendHeartbeat ["g"] "w" [] ⟨0, 0, (2 ^ 53 - 1) / 2 ^ 53⟩).1 =
      some 32 ∧
    ¬ ((32 : ℚ) < 32) := by
  refine ⟨by norm_num, by norm_num, ?_, by norm_num⟩
  simp only [sendHeartbeat, heartbeatMemory, Option.some.injEq]
  norm_num [toFixed2]

/-- Claim C10 (amended): every assignment created by
`getOrAssignResources` has a gpu drawn from the capability catalog and a
storage figure that is the exactly-two-fractional-digit rendering of a
number in `[0, 500)`; and every heartbeat's `AvailableMemory` figure is
the two-digit rounding of a number in `[0, 32)` and hence lies in the
closed interval `[0, 32]` (the upper bound is reachable by rounding). -/
theorem resourceAssignment_spec (gpuList : List String) (rg rs rm : ℚ)
    (st : Store) (wid : String) (hgl : gpuList ≠ [])
    (hst : List.lookup wid st = none)
    (h0g : 0 ≤ rg) (h1g : rg < 1) (h0s : 0 ≤ rs) (h1s : rs < 1)
    (h0m : 0 ≤ rm) (h1m : rm < 1) :
    (∃ g ∈ gpuList,
       (getOrAssignResources gpuList rg rs st wid).1.gpu = some g) ∧
    (getOrAssignResources gpuList rg rs st wid).1.storage =
      toFixed2 (rs * 500) ∧
    (0 ≤ rs * 500 ∧ rs * 500 < 500) ∧
    (∃ n : ℕ, n ≤ 50000 ∧
       (getOrAssignResources gpuList rg rs st wid).1.storage =
         (n : ℚ) / 100) ∧
    heartbeatMemory (sendHeartbeat gpuList wid st ⟨rg, rs, rm⟩).1 =
      some (toFixed2 (rm * 32)) ∧
    0 ≤ toFixed2 (rm * 32) ∧ toFixed2 (rm * 32) ≤ 32 := by
  have hlen : 0 < gpuList.length := List.length_pos.mpr hgl
  have hres : getOrAssignResources gpuList rg rs st wid =
      ({ gpu := jsIndex gpuList ⌊rg * (gpuList.length : ℚ)⌋
         storage := toFixed2 (rs * 500) }, (wid,
        { gpu := jsIndex gpuList ⌊rg * (gpuList.length : ℚ)⌋
          storage := toFixed2 (rs * 500) }) :: st) := by
    unfold getOrAssignResources
    rw [hst]
  have hfl0 : (0 : ℤ) ≤ ⌊rg * (gpuList.length : ℚ)⌋ :=
    Int.floor_nonneg.mpr (mul_nonneg h0g (by positivity))
  have hflt : ⌊rg * (gpuList.length : ℚ)⌋ < (gpuList.length : ℤ) := by
    apply Int.floor_lt.mpr
    have hl : (0 : ℚ) < (gpuList.length : ℚ) := by exact_mod_cast hlen
    calc rg * (gpuList.length : ℚ) < 1 * (gpuList.length : ℚ) :=
          mul_lt_mul_of_pos_right h1g hl
      _ = ((gpuList.length : ℤ) : ℚ) := by push_cast; ring
  refine ⟨?_, by rw [hres], ⟨by positivity, by linarith⟩, ?_, ?_, ?_, ?_⟩
  · rw [hres]
    have hidx : ⌊rg * (gpuList.length : ℚ)⌋.toNat < gpuList.length := by
      omega
    refine ⟨gpuList.get ⟨⌊rg * (gpuList.length : ℚ)⌋.toNat, hidx⟩,
      List.get_mem gpuList _ hidx, ?_⟩
    simp only [jsIndex]
    rw [dif_pos ⟨hfl0, hidx⟩]
  · rw [hres]
    have harg0 : (0 : ℤ) ≤ ⌊rs * 500 * 100 + 1/2⌋ := by
      apply Int.floor_nonneg.mpr
      have : 0 ≤ rs * 500 * 100 := by positivity
      linarith
    have harg1 : ⌊rs * 500 * 100 + 1/2⌋ < (50001 : ℤ) := by
      apply Int.floor_lt.mpr
      push_cast
      nlinarith
    refine ⟨⌊rs * 500 * 100 + 1/2⌋.toNat, by omega, ?_⟩
    have hcast : ((⌊rs * 500 * 100 + 1/2⌋.toNat : ℕ) : ℚ) =
        ((⌊rs * 500 * 100 + 1/2⌋ : ℤ) : ℚ) := by
      exact_mod_cast Int.toNat_of_nonneg harg0
    unfold toFixed2
    rw [hcast]
  · simp [sendHeartbeat, heartbeatMemory]
  · exact toFixed2_nonneg _ (by positivity)
  · exact toFixed2_le_nat _ 32 (by
      have : rm * 32 < 1 * 32 := by linarith
      simpa using this)

/-- Witness for the amended claim C10: the memory figure at the draw
1/2 is within the closed bound. -/
theorem resourceAssignment_spec_witness :
    0 ≤ toFixed2 ((1 / 2 : ℚ) * 32) ∧ toFixed2 ((1 / 2 : ℚ) * 32) ≤ 32 :=
  (resourceAssignment_spec ["g"] (1/2) (1/2) (1/2) [] "w"
    (by simp) rfl (by norm_num) (by norm_num) (by norm_num) (by norm_num)
    (by norm_num) (by norm_num)).2.2.2.2.2
